import Mathlib

/-!
Verification of the StreamCaptioner core against its specification.

The development shallowly embeds the algorithmic core of the repository:
the feed/caption model with its bounded FIFO history (src/feeds/feed.py),
the feed manager routing (src/feeds/manager.py), the websocket backlog
replay (src/web/server.py), and the audio channel extraction, linear
resampling and int16 encoding chain (src/audio/capture.py).

Machine floats are modelled as exact rationals; datetime timestamps as
integers; the bounded deque as a list that drops its oldest element on
overflow; callback invocation as an explicit list of emitted notifications.
-/

namespace StreamCaptioner

/-- A transcription result, mirroring the Transcript dataclass of
src/transcription/deepgram_client.py (word timings omitted: no claim
touches them). -/
structure Transcript where
  text : String
  is_final : Bool
  confidence : ℚ
  timestamp : ℤ
deriving DecidableEq, Repr

/-- A single caption entry, mirroring the Caption dataclass of
src/feeds/feed.py.  The uuid4 id is modelled as a natural drawn from a
per-feed counter. -/
structure Caption where
  id : ℕ
  feed_id : String
  text : String
  is_final : Bool
  timestamp : ℤ
  confidence : ℚ
deriving DecidableEq, Repr

/-- Append to a bounded deque: mirrors collections.deque with maxlen.
Appending to a full deque evicts the oldest (leftmost) element. -/
def dequeAppend (maxlen : ℕ) (xs : List α) (x : α) : List α :=
  let ys := xs ++ [x]
  if maxlen < ys.length then ys.drop (ys.length - maxlen) else ys

/-- State of a single caption feed, mirroring the Feed class of
src/feeds/feed.py.  The captions deque holds the bounded history,
oldest first; the subscriber set is modelled as a list of opaque ids. -/
structure Feed where
  id : String
  name : String
  channel : ℤ
  vmix_input : String
  max_captions : ℕ
  captions : List Caption
  current_interim : Option String
  subscribers : List ℕ
  enabled : Bool
  next_caption_id : ℕ
deriving DecidableEq, Repr

/-- Mirrors Feed.__init__: fresh feed with empty history and no interim. -/
def Feed.init (feed_id name : String) (channel : ℤ) (vmix_input : String := "")
    (max_captions : ℕ := 1000) : Feed :=
  { id := feed_id, name := name, channel := channel, vmix_input := vmix_input,
    max_captions := max_captions, captions := [], current_interim := none,
    subscribers := [], enabled := true, next_caption_id := 0 }

/-- Mirrors Feed.add_transcript: build a Caption from the transcript; a
final transcript is appended to the bounded history and clears the interim
slot, a non-final one only overwrites the interim slot.  Returns the new
state together with the created Caption (the subscriber notification
carries exactly that caption). -/
def Feed.add_transcript (f : Feed) (t : Transcript) : Feed × Caption :=
  let caption : Caption :=
    { id := f.next_caption_id, feed_id := f.id, text := t.text,
      is_final := t.is_final, timestamp := t.timestamp,
      confidence := t.confidence }
  if t.is_final then
    ({ f with captions := dequeAppend f.max_captions f.captions caption,
              current_interim := none,
              next_caption_id := f.next_caption_id + 1 }, caption)
  else
    ({ f with current_interim := some t.text,
              next_caption_id := f.next_caption_id + 1 }, caption)

/-- Mirrors Feed.get_history: captions whose timestamp is at least
now minus the lookback window, in storage (insertion) order.  Timestamps
are integer seconds, the window is given in minutes. -/
def Feed.get_history (f : Feed) (now : ℤ) (minutes : ℤ := 10) : List Caption :=
  let cutoff := now - minutes * 60
  f.captions.filter (fun c => cutoff ≤ c.timestamp)

/-- Python truthiness of the interim slot: None and the empty string are
falsy.  This is the test Feed.get_current_text performs. -/
def interimTruthy : Option String → Bool
  | none => false
  | some s => s ≠ ""

/-- Mirrors Feed.get_current_text: the interim text when the interim slot
is truthy, else the last stored caption text, else the empty string. -/
def Feed.get_current_text (f : Feed) : String :=
  if interimTruthy f.current_interim then
    f.current_interim.getD ""
  else
    match f.captions.getLast? with
    | some c => c.text
    | none => ""

/-- Fold a sequence of transcripts into a feed, left to right. -/
def Feed.applyTranscripts (f : Feed) (ts : List Transcript) : Feed :=
  ts.foldl (fun acc t => (acc.add_transcript t).1) f

/-- State of the feed registry, mirroring the FeedManager class of
src/feeds/manager.py: feed-id keyed mapping (an association list with
unique keys) plus the list of global subscribers modelled as opaque ids. -/
structure FeedManager where
  feeds : List (String × Feed)
  global_subscribers : List ℕ
deriving Repr

/-- Mirrors FeedManager.get_feed: dictionary lookup by feed id. -/
def FeedManager.get_feed (m : FeedManager) (feed_id : String) : Option Feed :=
  m.feeds.lookup feed_id

/-- Replace the feed stored under a key, leaving other entries alone
(models the in-place mutation of the Feed object held in the dict). -/
def updateFeed : List (String × Feed) → String → Feed → List (String × Feed)
  | [], _, _ => []
  | (k, v) :: rest, key, f =>
      if k = key then (k, f) :: rest else (k, v) :: updateFeed rest key f

/-- Mirrors FeedManager.add_transcript: look the feed up; when present and
enabled, delegate to Feed.add_transcript, notify every global subscriber
with the feed id and the created caption, and return it; when absent or
disabled, leave all state untouched and return None.  The result carries
the new manager state, the returned Optional Caption, and the list of
emitted global-subscriber notifications. -/
def FeedManager.add_transcript (m : FeedManager) (feed_id : String)
    (t : Transcript) : FeedManager × Option Caption × List (ℕ × String × Caption) :=
  match m.get_feed feed_id with
  | some feed =>
      if feed.enabled then
        let fc := feed.add_transcript t
        ({ m with feeds := updateFeed m.feeds feed_id fc.1 }, some fc.2,
         m.global_subscribers.map (fun s => (s, feed_id, fc.2)))
      else (m, none, [])
  | none => (m, none, [])

/-- A message sent to a websocket listener, as emitted by
websocket_endpoint in src/web/server.py. -/
inductive WsMsg
  | history_start (count : ℕ)
  | caption (c : Caption)
  | history_end
deriving DecidableEq, Repr

/-- Mirrors the backlog-replay section of websocket_endpoint in
src/web/server.py: fetch the last 5 minutes of history; when it is
nonempty send a history_start marker carrying its length, then the
history entries in reversed storage order, then a history_end marker;
when it is empty send nothing. -/
def websocketBacklog (f : Feed) (now : ℤ) : List WsMsg :=
  let history := f.get_history now 5
  if history.isEmpty then []
  else
    WsMsg.history_start history.length ::
      (history.reverse.map WsMsg.caption ++ [WsMsg.history_end])

/-- numpy.linspace from 0 to a stop value with a given sample count:
empty for count 0, the singleton start point for count 1, otherwise
count evenly spaced points whose i-th entry is i * stop / (count - 1). -/
def linspaceTo (stop : ℚ) (num : ℕ) : List ℚ :=
  if num = 0 then []
  else if num = 1 then [0]
  else (List.range num).map (fun i : ℕ => (i : ℚ) * stop / ((num : ℚ) - 1))

/-- One linearly interpolated sample, mirroring the index arithmetic of
the resampler body: lower index is the floor of the position, upper index
is the lower plus one clamped to the last valid index, and the weight is
the fractional part of the position. -/
def interpAt (samples : List ℚ) (p : ℚ) : ℚ :=
  let lower := (⌊p⌋).toNat
  let upper := min (lower + 1) (samples.length - 1)
  let w := p - (⌊p⌋ : ℚ)
  samples.getD lower 0 * (1 - w) + samples.getD upper 0 * w

/-- Python int() applied to a rational: truncation toward zero, computed
on the reduced numerator and denominator.  This is also the rounding mode
of a C float-to-int cast. -/
def pyInt (q : ℚ) : ℤ := q.num.tdiv q.den

/-- Mirrors _resample_linear of src/audio/capture.py: identity when the
rates agree; otherwise the output length is int(duration * target_rate)
with duration = length / orig_rate, and each output sample is the linear
interpolation of the input at the linspace positions. -/
def resample_linear (samples : List ℚ) (orig_rate target_rate : ℕ) : List ℚ :=
  if orig_rate = target_rate then samples
  else
    let duration : ℚ := (samples.length : ℚ) / (orig_rate : ℚ)
    let target_length : ℕ := (pyInt (duration * (target_rate : ℚ))).toNat
    let indices := linspaceTo ((samples.length : ℚ) - 1) target_length
    indices.map (interpAt samples)

/-- Mirrors the channel extraction of AudioCapture._process_audio: a block
is a list of frames, one rational per device channel.  A single selected
index copies that channel; several selected indices are averaged per
frame with equal weights. -/
def extract_channels (indata : List (List ℚ)) (channels : List ℕ) : List ℚ :=
  if channels.length = 1 then
    indata.map (fun frame => frame.getD (channels.getD 0 0) 0)
  else
    indata.map (fun frame =>
      (channels.map (fun c => frame.getD c 0)).sum / (channels.length : ℚ))

/-- Reduce an integer to the int16 range by wrapping modulo 2^16 (the
numpy astype(int16) narrowing keeps the low 16 bits; it does not clamp). -/
def wrapInt16 (z : ℤ) : ℤ := (z + 32768) % 65536 - 32768

/-- Mirrors the encoding step of AudioCapture._process_audio: each float
sample is multiplied by 32767 and narrowed to a signed 16-bit integer by
truncation toward zero followed by the modular wrap, with no clamping. -/
def float_to_int16 (x : ℚ) : ℤ := wrapInt16 (pyInt (x * 32767))

/-- The full per-block encoding of the processing worker. -/
def encode_int16 (samples : List ℚ) : List ℤ := samples.map float_to_int16

/-- The audio-capture session state built by AudioCapture.__init__ of
src/audio/capture.py.  No stream exists at construction time; start is
what opens it. -/
structure AudioCapture where
  device_id : ℤ
  channels : List ℤ
  target_sample_rate : ℕ
  chunk_size : ℕ
  device_channels : ℤ
  device_sample_rate : ℕ
  stream_open : Bool
  running : Bool
deriving DecidableEq, Repr

/-- The channel-validation loop of AudioCapture.__init__: raise ValueError
on the first selected index that is negative or at least the device
channel count. -/
def validate_channels : List ℤ → ℤ → Except String Unit
  | [], _ => .ok ()
  | ch :: rest, device_channels =>
      if ch < 0 ∨ device_channels ≤ ch then
        .error "Channel out of range."
      else validate_channels rest device_channels

/-- Mirrors AudioCapture.__init__: store the configuration, query the
device channel count and native rate, and validate the selected channels;
a failed validation raises before any stream is opened, a successful
construction holds no open stream. -/
def AudioCapture.init (device_id : ℤ) (channels : List ℤ)
    (sample_rate : ℕ := 16000) (chunk_size : ℕ := 4096)
    (device_channels : ℤ := 2) (device_sample_rate : ℕ := 44100) :
    Except String AudioCapture :=
  match validate_channels channels device_channels with
  | .error e => .error e
  | .ok _ =>
      .ok { device_id := device_id, channels := channels,
            target_sample_rate := sample_rate, chunk_size := chunk_size,
            device_channels := device_channels,
            device_sample_rate := device_sample_rate,
            stream_open := false, running := false }

/-- Mirrors AudioCapture.start: a no-op when already running, otherwise
the stream is opened and the session marked running. -/
def AudioCapture.start (c : AudioCapture) : AudioCapture :=
  if c.running then c else { c with running := true, stream_open := true }

/-! ### Claim-side derived definitions and concrete inputs -/

/-- One step of tracking the interim slot along a transcript sequence:
a final transcript clears it, a non-final one overwrites it. -/
def interimStep (_acc : Option String) (t : Transcript) : Option String :=
  if t.is_final then none else some t.text

/-- One step of tracking the most recent final text along a sequence. -/
def lastFinalStep (acc : Option String) (t : Transcript) : Option String :=
  if t.is_final then some t.text else acc

/-- The interim text set after the last final caption of the sequence,
if any. -/
def latestInterim (ts : List Transcript) : Option String :=
  ts.foldl interimStep none

/-- The text of the most recent final transcript of the sequence, if any. -/
def latestFinalText (ts : List Transcript) : Option String :=
  ts.foldl lastFinalStep none

/-- The per-sample value the specification states for the resampler:
output sample i sits at fractional position p = i * (N-1) / (outN-1) and
is the interpolation of the inputs at floor(p) and at floor(p)+1 clamped
to N-1, weighted by the fractional part of p. -/
def specResampleSample (samples : List ℚ) (outLen i : ℕ) : ℚ :=
  let p : ℚ := (i : ℚ) * ((samples.length : ℚ) - 1) / ((outLen : ℚ) - 1)
  samples.getD (⌊p⌋).toNat 0 * (1 - (p - (⌊p⌋ : ℚ)))
    + samples.getD (min ((⌊p⌋).toNat + 1) (samples.length - 1)) 0
        * (p - (⌊p⌋ : ℚ))

/-- A concrete final transcript. -/
def finalT (s : String) (ts : ℤ) : Transcript :=
  { text := s, is_final := true, confidence := 1, timestamp := ts }

/-- A concrete interim transcript. -/
def interimT (s : String) (ts : ℤ) : Transcript :=
  { text := s, is_final := false, confidence := 1, timestamp := ts }

/-- A feed holding two stored final captions, the older one first. -/
def demoFeed : Feed :=
  (Feed.init "f" "Feed" 0).applyTranscripts [finalT "a" 1, finalT "b" 2]

/-- A feed whose only caption is far older than any lookback window. -/
def staleFeed : Feed :=
  (Feed.init "f" "Feed" 0).applyTranscripts [finalT "old" 0]

/-- A disabled feed registered under id x. -/
def disabledFeed : Feed := { Feed.init "x" "X" 0 with enabled := false }

/-- An enabled feed registered under id y. -/
def enabledFeedY : Feed := Feed.init "y" "Y" 1

/-- A manager owning one disabled and one enabled feed, with two global
subscribers. -/
def demoManager : FeedManager :=
  { feeds := [("x", disabledFeed), ("y", enabledFeedY)],
    global_subscribers := [3, 4] }

/-! ### Helper lemmas -/

theorem pyInt_eq_floor (q : ℚ) (h : 0 ≤ q) : pyInt q = ⌊q⌋ := by
  unfold pyInt
  rw [Int.tdiv_eq_ediv (Rat.num_nonneg.mpr h) (Int.ofNat_nonneg q.den)]
  exact (Rat.floor_def).symm

theorem pyInt_eq_ceil (q : ℚ) (h : q ≤ 0) : pyInt q = ⌈q⌉ := by
  have hneg : 0 ≤ -q := neg_nonneg.mpr h
  have hfl : pyInt (-q) = ⌊-q⌋ := pyInt_eq_floor (-q) hneg
  unfold pyInt at hfl ⊢
  rw [Rat.neg_num, Rat.neg_den, Int.neg_tdiv] at hfl
  have : q.num.tdiv q.den = -⌊-q⌋ := by omega
  rw [this, Int.floor_neg, neg_neg]

theorem pyInt_intCast (z : ℤ) : pyInt (z : ℚ) = z := by
  unfold pyInt
  rw [Rat.num_intCast, Rat.den_intCast]
  exact_mod_cast Int.tdiv_one z

theorem wrapInt16_eq_self (z : ℤ) (h1 : -32768 ≤ z) (h2 : z ≤ 32767) :
    wrapInt16 z = z := by
  unfold wrapInt16
  rw [Int.emod_eq_of_lt (by omega) (by omega)]
  omega

theorem length_dequeAppend (maxlen : ℕ) (xs : List α) (x : α) :
    (dequeAppend maxlen xs x).length = min (xs.length + 1) maxlen := by
  unfold dequeAppend
  by_cases h : maxlen < (xs ++ [x]).length
  · simp_all [List.length_drop, List.length_append]
    omega
  · simp_all [List.length_append]

theorem dequeAppend_getLast (maxlen : ℕ) (xs : List α) (x : α)
    (h : 0 < maxlen) : (dequeAppend maxlen xs x).getLast? = some x := by
  unfold dequeAppend
  by_cases hlt : maxlen < (xs ++ [x]).length
  · simp only [if_pos hlt]
    have hlen : (xs ++ [x]).length = xs.length + 1 := by simp
    have hle : (xs ++ [x]).length - maxlen ≤ xs.length := by omega
    rw [List.drop_append_of_le_length hle, List.getLast?_concat]
  · simp only [if_neg hlt, List.getLast?_concat]

theorem dequeAppend_eq_drop (cap : ℕ) (xs : List α) (x : α) :
    dequeAppend cap xs x = (xs ++ [x]).drop (xs.length + 1 - cap) := by
  unfold dequeAppend
  by_cases h : cap < (xs ++ [x]).length
  · simp only [if_pos h]
    congr 1
    simp
  · simp only [if_neg h]
    have h0 : xs.length + 1 - cap = 0 := by simp at h; omega
    simp [h0]

theorem foldl_dequeAppend (cap : ℕ) (l start : List α) (h : start.length ≤ cap) :
    l.foldl (dequeAppend cap) start
      = (start ++ l).drop (start.length + l.length - cap) := by
  induction l generalizing start with
  | nil =>
      simp only [List.foldl_nil, List.append_nil, List.length_nil, Nat.add_zero]
      have h0 : start.length - cap = 0 := by omega
      simp [h0]
  | cons x xs ih =>
      have hlen' : (dequeAppend cap start x).length ≤ cap := by
        rw [length_dequeAppend]; omega
      rw [List.foldl_cons, ih (dequeAppend cap start x) hlen',
        length_dequeAppend, dequeAppend_eq_drop]
      have hk : start.length + 1 - cap ≤ (start ++ [x]).length := by
        simp only [List.length_append, List.length_cons, List.length_nil]
        omega
      rw [← List.drop_append_of_le_length hk, List.drop_drop]
      have hassoc : (start ++ [x]) ++ xs = start ++ x :: xs := by simp
      rw [hassoc]
      congr 1
      simp only [List.length_cons]
      omega

theorem map_dequeAppend (g : α → β) (maxlen : ℕ) (xs : List α) (x : α) :
    (dequeAppend maxlen xs x).map g = dequeAppend maxlen (xs.map g) (g x) := by
  unfold dequeAppend
  by_cases h : maxlen < (xs ++ [x]).length
  · have h' : maxlen < (xs.map g ++ [g x]).length := by simp_all
    simp only [if_pos h, if_pos h', ← List.map_drop, List.map_append]
    simp
  · have h' : ¬ maxlen < (xs.map g ++ [g x]).length := by simp_all
    simp only [if_neg h, if_neg h', List.map_append]
    rfl

theorem getD_map_of_lt (l : List α) (g : α → β) (i : ℕ) (h : i < l.length)
    (d : β) (d' : α) : (l.map g).getD i d = g (l.getD i d') := by
  rw [List.getD_eq_getElem?_getD, List.getD_eq_getElem?_getD,
    List.getElem?_map, List.getElem?_eq_getElem h]
  rfl

theorem length_linspaceTo (stop : ℚ) (num : ℕ) :
    (linspaceTo stop num).length = num := by
  unfold linspaceTo
  by_cases h0 : num = 0
  · simp [h0]
  · by_cases h1 : num = 1 <;> simp [h0, h1]

theorem linspaceTo_getD (stop : ℚ) (num : ℕ) (i : ℕ) (h2 : 2 ≤ num)
    (hi : i < num) :
    (linspaceTo stop num).getD i 0 = (i : ℚ) * stop / ((num : ℚ) - 1) := by
  unfold linspaceTo
  have h0 : num ≠ 0 := by omega
  have h1 : num ≠ 1 := by omega
  simp only [if_neg h0, if_neg h1]
  rw [getD_map_of_lt (List.range num) _ i (by simpa using hi) 0 0]
  congr 2
  rw [List.getD_eq_getElem?_getD, List.getElem?_eq_getElem (by simpa using hi)]
  simp [List.getElem_range]

theorem add_transcript_interim (f : Feed) (t : Transcript) :
    (f.add_transcript t).1.current_interim = interimStep f.current_interim t := by
  unfold Feed.add_transcript interimStep
  by_cases hb : t.is_final
  · simp [hb]
  · simp [hb]

theorem add_transcript_max_captions (f : Feed) (t : Transcript) :
    (f.add_transcript t).1.max_captions = f.max_captions := by
  unfold Feed.add_transcript
  by_cases hb : t.is_final
  · simp [hb]
  · simp [hb]

theorem add_transcript_lastText (f : Feed) (t : Transcript)
    (h : 0 < f.max_captions) :
    ((f.add_transcript t).1.captions.getLast?).map (fun c => c.text)
      = lastFinalStep ((f.captions.getLast?).map (fun c => c.text)) t := by
  unfold Feed.add_transcript lastFinalStep
  by_cases hb : t.is_final
  · simp [hb, dequeAppend_getLast _ _ _ h]
  · simp [hb]

theorem applyTranscripts_interim (ts : List Transcript) (f : Feed) :
    (f.applyTranscripts ts).current_interim
      = ts.foldl interimStep f.current_interim := by
  induction ts generalizing f with
  | nil => rfl
  | cons t rest ih =>
      unfold Feed.applyTranscripts at ih ⊢
      rw [List.foldl_cons, List.foldl_cons, ih, add_transcript_interim]

theorem applyTranscripts_max_captions (ts : List Transcript) (f : Feed) :
    (f.applyTranscripts ts).max_captions = f.max_captions := by
  induction ts generalizing f with
  | nil => rfl
  | cons t rest ih =>
      unfold Feed.applyTranscripts at ih ⊢
      rw [List.foldl_cons, ih, add_transcript_max_captions]

theorem applyTranscripts_lastText (ts : List Transcript) (f : Feed)
    (h : 0 < f.max_captions) :
    ((f.applyTranscripts ts).captions.getLast?).map (fun c => c.text)
      = ts.foldl lastFinalStep ((f.captions.getLast?).map (fun c => c.text)) := by
  induction ts generalizing f with
  | nil => rfl
  | cons t rest ih =>
      unfold Feed.applyTranscripts at ih ⊢
      rw [List.foldl_cons, List.foldl_cons,
        ih ((f.add_transcript t).1) (by rw [add_transcript_max_captions]; exact h),
        add_transcript_lastText f t h]

theorem applyTranscripts_finals_text (ts : List Transcript) (f : Feed)
    (hfin : ∀ t ∈ ts, t.is_final = true) :
    (f.applyTranscripts ts).captions.map (fun c => c.text)
      = ts.foldl (fun acc t => dequeAppend f.max_captions acc t.text)
          (f.captions.map (fun c => c.text)) := by
  induction ts generalizing f with
  | nil => rfl
  | cons t rest ih =>
      have ht : t.is_final = true := hfin t (by simp)
      have hrest : ∀ u ∈ rest, u.is_final = true := fun u hu => hfin u (by simp [hu])
      unfold Feed.applyTranscripts at ih ⊢
      rw [List.foldl_cons, List.foldl_cons,
        ih ((f.add_transcript t).1) hrest, add_transcript_max_captions]
      congr 1
      unfold Feed.add_transcript
      simp only [ht, if_pos]
      rw [map_dequeAppend]

theorem validate_channels_error (channels : List ℤ) (dc : ℤ)
    (h : ∃ ch ∈ channels, ch < 0 ∨ dc ≤ ch) :
    validate_channels channels dc = .error "Channel out of range." := by
  induction channels with
  | nil => simp at h
  | cons c rest ih =>
      unfold validate_channels
      by_cases hb : c < 0 ∨ dc ≤ c
      · simp [hb]
      · simp only [if_neg hb]
        apply ih
        rcases h with ⟨ch, hmem, hbad⟩
        rcases List.mem_cons.mp hmem with hc | hc
        · exact absurd (hc ▸ hbad) hb
        · exact ⟨ch, hc, hbad⟩

/-! ### Claim theorems -/

/-- C5: when the native sample rate equals the target sample rate, the
resampler is the identity transform and returns the input unchanged. -/
theorem resample_identity_same_rate (samples : List ℚ) (rate : ℕ) :
    resample_linear samples rate rate = samples := by
  simp [resample_linear]

/-- C9: the int16 encoding multiplies each sample by 32767 and narrows
by truncation toward zero with no clamping; inside the domain -1..1 the
modular wrap is the identity and the output is the truncated product,
while the out-of-range input 2.0 wraps around to -2 instead of
saturating at 32767. -/
theorem float_to_int16_trunc_no_clamp :
    (∀ x : ℚ, -1 ≤ x → x ≤ 1 →
      float_to_int16 x
        = if 0 ≤ x * 32767 then ⌊x * 32767⌋ else ⌈x * 32767⌉) ∧
    float_to_int16 2 = -2 ∧ float_to_int16 2 ≠ 32767 := by
  have htwo : float_to_int16 2 = -2 := by
    have hm : ((2 : ℚ) * 32767) = ((65534 : ℤ) : ℚ) := by norm_num
    rw [float_to_int16, hm, pyInt_intCast]
    decide
  refine ⟨fun x h1 h2 => ?_, htwo, by rw [htwo]; decide⟩
  have hub : x * 32767 ≤ 32767 := by nlinarith
  have hlb : -32767 ≤ x * 32767 := by nlinarith
  by_cases h0 : 0 ≤ x * 32767
  · have hpy : pyInt (x * 32767) = ⌊x * 32767⌋ := pyInt_eq_floor _ h0
    have hfu : ⌊x * 32767⌋ ≤ 32767 := by
      have hf : (⌊x * 32767⌋ : ℚ) ≤ x * 32767 := Int.floor_le _
      exact_mod_cast hf.trans hub
    have hfl : 0 ≤ ⌊x * 32767⌋ := Int.floor_nonneg.mpr h0
    rw [float_to_int16, hpy, wrapInt16_eq_self _ (by omega) hfu, if_pos h0]
  · push_neg at h0
    have hpy : pyInt (x * 32767) = ⌈x * 32767⌉ := pyInt_eq_ceil _ h0.le
    have hcu : ⌈x * 32767⌉ ≤ 0 := Int.ceil_le.mpr (by exact_mod_cast h0.le)
    have hcl : -32767 ≤ ⌈x * 32767⌉ := by
      have hc : (-32767 : ℚ) ≤ (⌈x * 32767⌉ : ℚ) := hlb.trans (Int.le_ceil _)
      exact_mod_cast hc
    rw [float_to_int16, hpy, wrapInt16_eq_self _ (by omega) (by omega),
      if_neg (not_le.mpr h0)]

/-- C9 witness: the in-range sample 1/2 encodes to the truncated product
16383. -/
theorem float_to_int16_witness :
    -1 ≤ (1 / 2 : ℚ) ∧ (1 / 2 : ℚ) ≤ 1 ∧ float_to_int16 (1 / 2) = 16383 := by
  refine ⟨by norm_num, by norm_num, ?_⟩
  have h := float_to_int16_trunc_no_clamp.1 (1 / 2) (by norm_num) (by norm_num)
  rw [h, if_pos (by norm_num)]
  exact Int.floor_eq_iff.mpr ⟨by norm_num, by norm_num⟩

/-- C8: constructing a capture session with any selected channel index
that is negative or at least the device channel count fails with a
validation error; no session (and hence no stream) is produced. -/
theorem capture_init_rejects_invalid_channel (device_id : ℤ)
    (channels : List ℤ) (sample_rate chunk_size : ℕ) (dc : ℤ) (dsr : ℕ)
    (h : ∃ ch ∈ channels, ch < 0 ∨ dc ≤ ch) :
    (∃ e, AudioCapture.init device_id channels sample_rate chunk_size dc dsr
        = .error e) ∧
    ∀ c, AudioCapture.init device_id channels sample_rate chunk_size dc dsr
        ≠ .ok c := by
  have hv := validate_channels_error channels dc h
  unfold AudioCapture.init
  rw [hv]
  exact ⟨⟨_, rfl⟩, fun c hk => by cases hk⟩

/-- C8 witness: selecting channel index 2 on a 2-channel device (index
equal to the channel count) fails construction. -/
theorem capture_init_witness :
    (∃ ch ∈ [(2 : ℤ)], ch < 0 ∨ (2 : ℤ) ≤ ch) ∧
    ∃ e, AudioCapture.init 0 [2] 16000 4096 2 44100 = .error e :=
  ⟨by decide,
   (capture_init_rejects_invalid_channel 0 [2] 16000 4096 2 44100 (by decide)).1⟩

/-- C10: a listener connecting to a feed whose lookback window holds no
captions receives no backlog framing at all, neither a history_start of
count 0 nor a history_end. -/
theorem websocketBacklog_empty_no_framing (f : Feed) (now : ℤ)
    (h : f.get_history now 5 = []) : websocketBacklog f now = [] := by
  simp [websocketBacklog, h]

/-- C10 witness: a feed whose only caption predates the window sends no
backlog messages. -/
theorem websocketBacklog_empty_witness :
    staleFeed.get_history 10000 5 = [] ∧ websocketBacklog staleFeed 10000 = [] :=
  ⟨by decide, websocketBacklog_empty_no_framing staleFeed 10000 (by decide)⟩

/-- C1: code-bug evidence.  A feed stores two final captions; the
history returned by get_history is oldest first, yet the websocket
backlog emits the newer caption before the older one between the
history_start and history_end markers, so a connecting listener does not
receive the stored captions in oldest-first order. -/
theorem websocketBacklog_sends_newest_first :
    (demoFeed.get_history 2 5).map (fun c => c.text) = ["a", "b"] ∧
    websocketBacklog demoFeed 2 =
      [WsMsg.history_start 2,
       WsMsg.caption { id := 1, feed_id := "f", text := "b", is_final := true,
                       timestamp := 2, confidence := 1 },
       WsMsg.caption { id := 0, feed_id := "f", text := "a", is_final := true,
                       timestamp := 1, confidence := 1 },
       WsMsg.history_end] := by decide

/-- C4: the mono extractor copies the single selected channel verbatim,
and averages the selected channels with equal weights when more than one
index is selected, frame by frame. -/
theorem extract_channels_copy_or_mean (indata : List (List ℚ))
    (channels : List ℕ) (i : ℕ) (hi : i < indata.length) :
    (channels.length = 1 →
      (extract_channels indata channels).getD i 0
        = (indata.getD i []).getD (channels.getD 0 0) 0) ∧
    (1 < channels.length →
      (extract_channels indata channels).getD i 0
        = (channels.map (fun c => (indata.getD i []).getD c 0)).sum
            / (channels.length : ℚ)) := by
  constructor
  · intro h1
    unfold extract_channels
    rw [if_pos h1, getD_map_of_lt indata _ i hi 0 []]
  · intro h2
    unfold extract_channels
    rw [if_neg (by omega), getD_map_of_lt indata _ i hi 0 []]

/-- C4 witness: with channels 0 and 1 selected and frame 0 carrying
samples 1.0 and 0.0, the extractor outputs their mean 0.5. -/
theorem extract_channels_witness :
    (0 : ℕ) < 2 ∧ 1 < ([0, 1] : List ℕ).length ∧
    (extract_channels [[(1 : ℚ), 0], [0, 1]] [0, 1]).getD 0 0 = 1 / 2 := by
  refine ⟨by decide, by decide, ?_⟩
  have h := (extract_channels_copy_or_mean [[(1 : ℚ), 0], [0, 1]] [0, 1] 0
    (by decide)).2 (by decide)
  rw [h]
  simp

/-- C3: counterexample.  After a final caption "a" followed by an interim
transcript whose text is the empty string, the interim slot holds the
empty string, yet get_current_text returns "a" rather than the empty
interim text the claim predicts: the Python truthiness test treats an
empty interim as absent. -/
theorem get_current_text_empty_interim :
    latestInterim [finalT "a" 1, interimT "" 2] = some "" ∧
    ((Feed.init "f" "Feed" 0).applyTranscripts
        [finalT "a" 1, interimT "" 2]).get_current_text = "a" ∧
    ("a" : String) ≠ "" := by decide

/-- C3 amended: on any feed with positive history capacity,
get_current_text returns the latest interim text when a non-empty
interim was set after the last final caption, else the most recent final
caption's text, else the empty string (an interim whose text is empty is
treated as absent). -/
theorem get_current_text_after_transcripts (ts : List Transcript)
    (fid nm vmx : String) (ch : ℤ) (cap : ℕ) (hcap : 0 < cap) :
    ((Feed.init fid nm ch vmx cap).applyTranscripts ts).get_current_text
      = (match latestInterim ts with
         | some s => if s = "" then (latestFinalText ts).getD "" else s
         | none => (latestFinalText ts).getD "") := by
  have hI : ((Feed.init fid nm ch vmx cap).applyTranscripts ts).current_interim
      = latestInterim ts := by
    rw [applyTranscripts_interim]
    rfl
  have hL : (((Feed.init fid nm ch vmx cap).applyTranscripts ts).captions.getLast?).map
        (fun c => c.text) = latestFinalText ts := by
    rw [applyTranscripts_lastText ts _ hcap]
    rfl
  have hlast : (match ((Feed.init fid nm ch vmx cap).applyTranscripts ts).captions.getLast? with
      | some c => c.text
      | none => "") = (latestFinalText ts).getD "" := by
    rcases hgl : ((Feed.init fid nm ch vmx cap).applyTranscripts ts).captions.getLast? with
      _ | c
    · rw [hgl] at hL
      simp at hL
      simp [← hL]
    · rw [hgl] at hL
      simp at hL
      simp [← hL]
  unfold Feed.get_current_text
  rw [hI]
  cases hli : latestInterim ts with
  | none => simpa [interimTruthy] using hlast
  | some s =>
      by_cases hs : s = ""
      · simp only [hs, interimTruthy]
        simpa using hlast
      · simp [interimTruthy, hs]

/-- C3 witness: a non-empty interim set after a final caption is what
get_current_text returns. -/
theorem get_current_text_witness :
    (0 : ℕ) < 1000 ∧
    ((Feed.init "f" "Feed" 0 "" 1000).applyTranscripts
        [finalT "x" 1, interimT "y" 2]).get_current_text = "y" := by
  refine ⟨by decide, ?_⟩
  rw [get_current_text_after_transcripts [finalT "x" 1, interimT "y" 2]
    "f" "Feed" "" 0 1000 (by decide)]
  decide

/-- C6: the history of a feed with capacity cap, fed any sequence of
final transcripts, never exceeds cap entries and holds exactly the last
cap texts in insertion (oldest-first) order. -/
theorem history_bounded_fifo (ts : List Transcript) (fid nm vmx : String)
    (ch : ℤ) (cap : ℕ) (hfin : ∀ t ∈ ts, t.is_final = true) :
    ((Feed.init fid nm ch vmx cap).applyTranscripts ts).captions.length ≤ cap ∧
    ((Feed.init fid nm ch vmx cap).applyTranscripts ts).captions.map
        (fun c => c.text)
      = (ts.map (fun t => t.text)).drop (ts.length - cap) := by
  have hmap : ((Feed.init fid nm ch vmx cap).applyTranscripts ts).captions.map
        (fun c => c.text)
      = (ts.map (fun t => t.text)).foldl (dequeAppend cap) [] := by
    rw [applyTranscripts_finals_text ts _ hfin, List.foldl_map]
    rfl
  rw [foldl_dequeAppend cap _ [] (by simp)] at hmap
  simp only [List.nil_append, List.length_nil, Nat.zero_add,
    List.length_map] at hmap
  constructor
  · have hlen := congrArg List.length hmap
    simp only [List.length_map, List.length_drop] at hlen
    omega
  · exact hmap

/-- C6 witness: capacity 3 with finals a, b, c, d leaves exactly
b, c, d in insertion order. -/
theorem history_bounded_fifo_witness :
    (∀ t ∈ [finalT "a" 1, finalT "b" 2, finalT "c" 3, finalT "d" 4],
      t.is_final = true) ∧
    ((Feed.init "f" "Feed" 0 "" 3).applyTranscripts
        [finalT "a" 1, finalT "b" 2, finalT "c" 3, finalT "d" 4]).captions.map
        (fun c => c.text)
      = ["b", "c", "d"] := by
  refine ⟨by decide, ?_⟩
  rw [(history_bounded_fifo
    [finalT "a" 1, finalT "b" 2, finalT "c" 3, finalT "d" 4]
    "f" "Feed" "" 0 3 (by decide)).2]
  decide

/-- C7: delivering a transcript to a missing or disabled feed is a no-op
returning none with no state change and no global-subscriber
notification; delivering to a present enabled feed delegates to the
feed's add_transcript, notifies every global subscriber with the feed id
and created caption, and returns that caption. -/
theorem manager_add_transcript_cases (m : FeedManager) (fid : String)
    (t : Transcript) :
    ((m.get_feed fid = none ∨ ∃ f, m.get_feed fid = some f ∧ f.enabled = false) →
      m.add_transcript fid t = (m, none, [])) ∧
    (∀ f, m.get_feed fid = some f → f.enabled = true →
      m.add_transcript fid t
        = ({ m with feeds := updateFeed m.feeds fid (f.add_transcript t).1 },
           some (f.add_transcript t).2,
           m.global_subscribers.map (fun s => (s, fid, (f.add_transcript t).2)))) := by
  constructor
  · intro h
    unfold FeedManager.add_transcript
    rcases h with hnone | ⟨f, hsome, hdis⟩
    · rw [hnone]
    · rw [hsome]
      simp [hdis]
  · intro f hsome hen
    unfold FeedManager.add_transcript
    rw [hsome]
    simp [hen]

/-- C7 witness: on a manager holding a disabled feed x and an enabled
feed y, delivery to x is a silent no-op returning none, while delivery
to y returns the caption created by feed y. -/
theorem manager_add_transcript_witness :
    (demoManager.get_feed "x" = some disabledFeed ∧
      disabledFeed.enabled = false) ∧
    demoManager.add_transcript "x" (finalT "hello" 5) = (demoManager, none, []) ∧
    (demoManager.add_transcript "y" (finalT "hello" 5)).2.1
      = some (enabledFeedY.add_transcript (finalT "hello" 5)).2 := by
  refine ⟨⟨by decide, by decide⟩, ?_, ?_⟩
  · exact (manager_add_transcript_cases demoManager "x" (finalT "hello" 5)).1
      (Or.inr ⟨disabledFeed, by decide, by decide⟩)
  · rw [(manager_add_transcript_cases demoManager "y" (finalT "hello" 5)).2
      enabledFeedY (by decide) (by decide)]

theorem resample_linear_length (samples : List ℚ) (orig_rate target_rate : ℕ)
    (h : orig_rate ≠ target_rate) :
    (resample_linear samples orig_rate target_rate).length
      = (⌊(samples.length : ℚ) / (orig_rate : ℚ) * (target_rate : ℚ)⌋).toNat := by
  unfold resample_linear
  rw [if_neg h, List.length_map, length_linspaceTo, pyInt_eq_floor _
    (mul_nonneg (div_nonneg (Nat.cast_nonneg _) (Nat.cast_nonneg _))
      (Nat.cast_nonneg _))]

/-- C2: counterexample.  For one input sample at native rate 2 and
target rate 3 the claim's output count round(N/origRate * targetRate) is
round(1.5) = 2, but the resampler produces 1 sample: the code truncates
the product with int() instead of rounding it. -/
theorem resample_length_not_round :
    (resample_linear [(0 : ℚ)] 2 3).length ≠ (round ((1 : ℚ) / 2 * 3)).toNat := by
  rw [resample_linear_length [(0 : ℚ)] 2 3 (by decide)]
  have h1 : (⌊(([(0 : ℚ)].length : ℚ)) / ((2 : ℕ) : ℚ) * ((3 : ℕ) : ℚ)⌋) = 1 :=
    Int.floor_eq_iff.mpr ⟨by norm_num, by norm_num⟩
  have h2 : round ((1 : ℚ) / 2 * 3) = 2 := by
    rw [round_eq, show ((1 : ℚ) / 2 * 3 + 1 / 2) = ((2 : ℤ) : ℚ) by norm_num,
      Int.floor_intCast]
  rw [h1, h2]
  decide

/-- C2 amended: with distinct rates, the output length is the truncation
(floor, via Python int()) of N/origRate * targetRate rather than its
rounding, and whenever the output holds at least two samples, output
sample i is the linear interpolation the claim describes at fractional
position p = i * (N-1) / (outN-1): between inputs floor(p) and
floor(p)+1 clamped to N-1, weighted by the fractional part of p. -/
theorem resample_linear_spec (samples : List ℚ) (orig_rate target_rate : ℕ)
    (hne : orig_rate ≠ target_rate) :
    (resample_linear samples orig_rate target_rate).length
      = (⌊(samples.length : ℚ) / (orig_rate : ℚ) * (target_rate : ℚ)⌋).toNat ∧
    (∀ i, 2 ≤ (resample_linear samples orig_rate target_rate).length →
      i < (resample_linear samples orig_rate target_rate).length →
      (resample_linear samples orig_rate target_rate).getD i 0
        = specResampleSample samples
            (resample_linear samples orig_rate target_rate).length i) := by
  refine ⟨resample_linear_length samples orig_rate target_rate hne, ?_⟩
  intro i h2 hi
  have hEq : resample_linear samples orig_rate target_rate
      = (linspaceTo ((samples.length : ℚ) - 1)
          ((pyInt ((samples.length : ℚ) / (orig_rate : ℚ)
            * (target_rate : ℚ))).toNat)).map (interpAt samples) := by
    unfold resample_linear
    rw [if_neg hne]
  rw [hEq] at h2 hi ⊢
  rw [List.length_map, length_linspaceTo] at h2 hi ⊢
  rw [getD_map_of_lt _ _ i (by rw [length_linspaceTo]; exact hi) 0 0,
    linspaceTo_getD _ _ i h2 hi]
  rfl

/-- C2 witness: four samples resampled from rate 2 to rate 3 give six
output samples, and output sample 1 matches the claim's interpolation
formula with the concrete value 3/5. -/
theorem resample_linear_witness :
    (2 : ℕ) ≠ 3 ∧
    (resample_linear [(0 : ℚ), 1, 2, 3] 2 3).length = 6 ∧
    (resample_linear [(0 : ℚ), 1, 2, 3] 2 3).getD 1 0
      = specResampleSample [(0 : ℚ), 1, 2, 3] 6 1 ∧
    (resample_linear [(0 : ℚ), 1, 2, 3] 2 3).getD 1 0 = 3 / 5 := by
  have hlen : (resample_linear [(0 : ℚ), 1, 2, 3] 2 3).length = 6 := by
    rw [(resample_linear_spec [(0 : ℚ), 1, 2, 3] 2 3 (by decide)).1]
    rw [show (⌊(([(0 : ℚ), 1, 2, 3].length : ℚ)) / ((2 : ℕ) : ℚ)
        * ((3 : ℕ) : ℚ)⌋) = 6 from Int.floor_eq_iff.mpr ⟨by norm_num, by norm_num⟩]
    rfl
  have h := (resample_linear_spec [(0 : ℚ), 1, 2, 3] 2 3 (by decide)).2 1
    (by rw [hlen]; decide) (by rw [hlen]; decide)
  have hval : specResampleSample [(0 : ℚ), 1, 2, 3] 6 1 = 3 / 5 := by
    unfold specResampleSample
    rw [show (((1 : ℕ) : ℚ) * (([(0 : ℚ), 1, 2, 3].length : ℚ) - 1)
        / (((6 : ℕ) : ℚ) - 1)) = 3 / 5 by norm_num]
    have hfl : (⌊(3 / 5 : ℚ)⌋) = 0 := Int.floor_eq_iff.mpr ⟨by norm_num, by norm_num⟩
    simp only [hfl]
    norm_num
  exact ⟨by decide, hlen, by rw [h, hlen], by rw [h, hlen, hval]⟩

end StreamCaptioner
